import Mathlib

/-!
Verification development for the Partitioning repository.

The repository snapshot contains src/TiledWorldGenerator.h and
src/TiledWorldGenerator.cpp.  The companion classes they use (Vector2f,
AABBf, Tile, Node with AddObject and FindTiles, and the per-tile
contribution function Tile.CalculateFieldTo) are declared in headers that
are not part of the snapshot; every definition for those classes below is
modelled from the specification and carries a doc comment saying so.

Modelling conventions.  C++ floats are rendered as rationals; the only
place a square root is needed (the magnitude used for the running global
maximum) is rendered as a real square root of a rational squared norm.
Pointer identity of heap-allocated tiles is rendered as a numeric id
field that nothing but the identity comparison reads.  The depth cap on
splitting is rendered as a fuel argument: a call at a node of depth d
receives fuel maxDepth - d, so fuel exhaustion coincides with the spec
condition depth being at or past the maximum depth.
-/

/-- Modelled from the spec: Vector2f, the 2D float vector used for tile
positions and accumulated field values (its header is not in the
snapshot).  Floats are rendered as rationals. -/
@[ext]
structure Vector2f where
  X : ℚ
  Y : ℚ
deriving DecidableEq, Repr

instance : Zero Vector2f := ⟨⟨0, 0⟩⟩

instance : Add Vector2f := ⟨fun a b => ⟨a.X + b.X, a.Y + b.Y⟩⟩

instance : Sub Vector2f := ⟨fun a b => ⟨a.X - b.X, a.Y - b.Y⟩⟩

instance : AddCommMonoid Vector2f where
  nsmul := nsmulRec
  add_assoc a b c := Vector2f.ext (add_assoc a.X b.X c.X) (add_assoc a.Y b.Y c.Y)
  zero_add a := Vector2f.ext (zero_add a.X) (zero_add a.Y)
  add_zero a := Vector2f.ext (add_zero a.X) (add_zero a.Y)
  add_comm a b := Vector2f.ext (add_comm a.X b.X) (add_comm a.Y b.Y)

/-- Modelled from the spec: scalar scaling of a Vector2f. -/
def Vector2f.smul (q : ℚ) (v : Vector2f) : Vector2f := ⟨q * v.X, q * v.Y⟩

/-- Modelled from the spec: the squared euclidean norm of a Vector2f.
Vector2f.Magnitude in the missing header returns the square root of this
quantity; comparisons of magnitudes coincide with comparisons of squared
magnitudes because the square root is monotone. -/
def Vector2f.MagnitudeSq (v : Vector2f) : ℚ := v.X * v.X + v.Y * v.Y

/-- Modelled from the spec: the magnitude of a Vector2f, as a real. -/
noncomputable def Vector2f.Magnitude (v : Vector2f) : ℝ :=
  Real.sqrt (v.MagnitudeSq : ℝ)

/-- Modelled from the spec: the tile category flag (the four values come
from the palette set up in the TiledWorldGenerator constructor, which is
in the snapshot). -/
inductive TileType where
  | ettFree
  | ettObstructed
  | ettUndesirable
  | ettDesirable
deriving DecidableEq, Repr

/-- Modelled from the spec: the Tile entity (Tile.h is not in the
snapshot): position, category flag, influence parameters and the
accumulated field value.  The id field renders C++ pointer identity: the
aggregation loop skips a candidate exactly when it is the very same heap
object as the tile being processed, and nothing else reads the id.  The
C++ field named Type is rendered as a lowercase field because Type is a
reserved word in Lean. -/
structure Tile where
  id : ℕ
  type : TileType
  Location : Vector2f
  FieldStrength : ℚ
  FieldRange : ℚ
  LocalFieldValue : Vector2f
deriving DecidableEq, Repr

/-- Modelled from the spec: the axis-aligned bounding box AABBf with its
two corner fields boxMin and boxMax, as used at
src/TiledWorldGenerator.cpp line 63. -/
structure AABBf where
  boxMin : Vector2f
  boxMax : Vector2f
deriving DecidableEq, Repr

/-- The world bounds built in CalculateField (line 63): the box from
(0,0) to (Length, Width). -/
def worldBounds (Length Width : ℕ) : AABBf :=
  ⟨⟨0, 0⟩, ⟨(Length : ℚ), (Width : ℚ)⟩⟩

/-- Modelled from the spec: closed point containment in a box. -/
def containsPoint (b : AABBf) (p : Vector2f) : Prop :=
  b.boxMin.X ≤ p.X ∧ p.X ≤ b.boxMax.X ∧ b.boxMin.Y ≤ p.Y ∧ p.Y ≤ b.boxMax.Y

instance (b : AABBf) (p : Vector2f) : Decidable (containsPoint b p) :=
  inferInstanceAs (Decidable (_ ∧ _ ∧ _ ∧ _))

/-- Modelled from the spec: closed box intersection, the overlap test of
the boundary-overlap duplication rule of Insert. -/
def intersects (a b : AABBf) : Prop :=
  a.boxMin.X ≤ b.boxMax.X ∧ b.boxMin.X ≤ a.boxMax.X ∧
    a.boxMin.Y ≤ b.boxMax.Y ∧ b.boxMin.Y ≤ a.boxMax.Y

instance (a b : AABBf) : Decidable (intersects a b) :=
  inferInstanceAs (Decidable (_ ∧ _ ∧ _ ∧ _))

/-- Midpoint of a box on the x axis. -/
def midX (b : AABBf) : ℚ := (b.boxMin.X + b.boxMax.X) / 2

/-- Midpoint of a box on the y axis. -/
def midY (b : AABBf) : ℚ := (b.boxMin.Y + b.boxMax.Y) / 2

/-- Modelled from the spec: the low-x low-y quadrant of an equal-area
four-way split. -/
def quad0 (b : AABBf) : AABBf := ⟨b.boxMin, ⟨midX b, midY b⟩⟩

/-- Modelled from the spec: the high-x low-y quadrant. -/
def quad1 (b : AABBf) : AABBf := ⟨⟨midX b, b.boxMin.Y⟩, ⟨b.boxMax.X, midY b⟩⟩

/-- Modelled from the spec: the low-x high-y quadrant. -/
def quad2 (b : AABBf) : AABBf := ⟨⟨b.boxMin.X, midY b⟩, ⟨midX b, b.boxMax.Y⟩⟩

/-- Modelled from the spec: the high-x high-y quadrant. -/
def quad3 (b : AABBf) : AABBf := ⟨⟨midX b, midY b⟩, b.boxMax⟩

/-- Modelled from the spec: the bounding box of a tile used for
insertion, its position extended by its influence range on both axes.
This mirrors the box built (but left unused) at lines 79-81 of
CalculateField. -/
def tileBounds (t : Tile) : AABBf :=
  ⟨t.Location - ⟨t.FieldRange, t.FieldRange⟩, t.Location + ⟨t.FieldRange, t.FieldRange⟩⟩

/-- Modelled from the spec: the three tunable constants of the spatial
index (split threshold, minimum splittable box size, maximum depth). -/
structure Config where
  splitThreshold : ℕ
  minCellSize : ℚ
  maxDepth : ℕ
deriving DecidableEq, Repr

/-- Modelled from the spec: an index node is either a leaf holding
contents or an internal node holding exactly four quadrant children
(leaf and internal are mutually exclusive by construction of the type).
The parent back-link of the C++ class is omitted: the spec states it is
never used for ownership and no snapshot code reads it.  The depth field
is the constructor argument of the C++ node (root depth 0, children
depth + 1). -/
inductive Node where
  | leaf (box : AABBf) (depth : ℕ) (contents : List Tile)
  | internal (box : AABBf) (depth : ℕ) (q0 q1 q2 q3 : Node)
deriving DecidableEq, Repr

/-- The bounding box of a node. -/
def Node.box : Node → AABBf
  | Node.leaf b _ _ => b
  | Node.internal b _ _ _ _ _ => b

/-- The depth of a node. -/
def Node.depth : Node → ℕ
  | Node.leaf _ d _ => d
  | Node.internal _ d _ _ _ _ => d

/-- Modelled from the spec: the split condition of Insert, evaluated
after the new object is appended: content count over the threshold and a
box larger than the minimum size on both axes.  The depth bound of the
spec is the fuel argument of Node.AddObject. -/
def splitCondition (cfg : Config) (box : AABBf) (contents : List Tile) : Prop :=
  cfg.splitThreshold < contents.length ∧
    cfg.minCellSize < box.boxMax.X - box.boxMin.X ∧
    cfg.minCellSize < box.boxMax.Y - box.boxMin.Y

instance (cfg : Config) (box : AABBf) (contents : List Tile) :
    Decidable (splitCondition cfg box contents) :=
  inferInstanceAs (Decidable (_ ∧ _ ∧ _))

/-- Modelled from the spec: insertion once the maximum depth is reached:
the node is treated as a leaf regardless of content count (no further
split); an internal node still forwards the object to every child whose
box overlaps the object's bounding box. -/
def Node.addAtCap : Node → Tile → Node
  | Node.leaf box d cs, t => Node.leaf box d (cs ++ [t])
  | Node.internal box d n0 n1 n2 n3, t =>
      Node.internal box d
        (if intersects n0.box (tileBounds t) then n0.addAtCap t else n0)
        (if intersects n1.box (tileBounds t) then n1.addAtCap t else n1)
        (if intersects n2.box (tileBounds t) then n2.addAtCap t else n2)
        (if intersects n3.box (tileBounds t) then n3.addAtCap t else n3)

/-- Modelled from the spec: forward one object to a child if the child's
box overlaps the object's bounding box, using a given insertion
function. -/
def insertOverlapping (f : Node → Tile → Node) (t : Tile) (n : Node) : Node :=
  if intersects n.box (tileBounds t) then f n t else n

/-- Modelled from the spec: after a split, re-insert every object held by
the splitting node into the four fresh children, in order, using the
boundary-overlap rule. -/
def redistribute (f : Node → Tile → Node) :
    List Tile → AABBf → ℕ → Node → Node → Node → Node → Node
  | [], box, d, n0, n1, n2, n3 => Node.internal box d n0 n1 n2 n3
  | t :: ts, box, d, n0, n1, n2, n3 =>
      redistribute f ts box d
        (insertOverlapping f t n0) (insertOverlapping f t n1)
        (insertOverlapping f t n2) (insertOverlapping f t n3)

/-- Modelled from the spec: Node.AddObject (Node.h and Node.cpp are not
in the snapshot; the algorithm follows spec section 4.1 and the design
comment at lines 19-57 of TiledWorldGenerator.cpp).  On an internal node
the object goes to every child whose box overlaps the object's bounding
box; on a leaf the object is appended and the node splits into four
equal quadrants when the split condition holds, redistributing all its
contents.  The fuel argument renders the spec's maximum-depth bound: a
call at a node of depth d receives fuel maxDepth - d, and at fuel 0
splitting stops. -/
def Node.AddObject (cfg : Config) : ℕ → Node → Tile → Node
  | 0, n, t => n.addAtCap t
  | b + 1, Node.leaf box d cs, t =>
      let cs' := cs ++ [t]
      if splitCondition cfg box cs' then
        redistribute (fun n u => Node.AddObject cfg b n u) cs' box d
          (Node.leaf (quad0 box) (d + 1) []) (Node.leaf (quad1 box) (d + 1) [])
          (Node.leaf (quad2 box) (d + 1) []) (Node.leaf (quad3 box) (d + 1) [])
      else Node.leaf box d cs'
  | b + 1, Node.internal box d n0 n1 n2 n3, t =>
      Node.internal box d
        (insertOverlapping (fun n u => Node.AddObject cfg b n u) t n0)
        (insertOverlapping (fun n u => Node.AddObject cfg b n u) t n1)
        (insertOverlapping (fun n u => Node.AddObject cfg b n u) t n2)
        (insertOverlapping (fun n u => Node.AddObject cfg b n u) t n3)

/-- Modelled from the spec: Node.FindTiles, the point query.  A leaf
returns its contents unmodified; an internal node recurses into the
single child whose region contains the point, with the documented
tie-break that a point exactly on a split boundary belongs to the
high-coordinate child. -/
def Node.FindTiles : Node → Vector2f → List Tile
  | Node.leaf _ _ cs, _ => cs
  | Node.internal box _ n0 n1 n2 n3, p =>
      if p.X < midX box then
        if p.Y < midY box then n0.FindTiles p else n2.FindTiles p
      else
        if p.Y < midY box then n1.FindTiles p else n3.FindTiles p

/-- The tree build of CalculateField (lines 63-71): a fresh root leaf
over the world bounds at depth 0, then every world tile inserted in
order. -/
def buildTree (cfg : Config) (Length Width : ℕ) (world : List Tile) : Node :=
  world.foldl (fun n t => Node.AddObject cfg cfg.maxDepth n t)
    (Node.leaf (worldBounds Length Width) 0 [])

/-- Modelled from the spec: Tile.CalculateFieldTo applied through a
pluggable contribution formula.  The spec fixes only the formula's
interface: it consumes the candidate's influence parameters (strength,
range) and the displacement from candidate to target.  The aggregation
code is oblivious to the formula, so the embedding passes it as the
contrib argument. -/
def CalculateFieldTo (contrib : ℚ → ℚ → Vector2f → Vector2f)
    (other target : Tile) : Vector2f :=
  contrib other.FieldStrength other.FieldRange (target.Location - other.Location)

/-- Modelled from the spec: one concrete contribution formula satisfying
the spec's requirements for Tile.CalculateFieldTo (Tile.cpp is not in
the snapshot): an inverse falloff from the candidate's strength and
range, zero outside the declared range and zero for exactly coincident
positions. -/
def inverseFalloff (strength range : ℚ) (disp : Vector2f) : Vector2f :=
  if disp.MagnitudeSq = 0 then 0
  else if disp.MagnitudeSq ≤ range * range then
    Vector2f.smul (strength / disp.MagnitudeSq) disp
  else 0

/-- The per-tile body of the aggregation loop of CalculateField (lines
74-99): reset the accumulated field to zero, do nothing more for an
obstacle, otherwise query the index at the tile's position and add the
contribution of every candidate except the tile itself, the exception
decided by pointer identity. -/
def processTile (contrib : ℚ → ℚ → Vector2f → Vector2f) (root : Node) (t : Tile) : Tile :=
  let t0 := { t with LocalFieldValue := 0 }
  if t.type = TileType.ettObstructed then t0
  else
    { t0 with
        LocalFieldValue :=
          (root.FindTiles t.Location).foldl
            (fun acc o => if o.id = t.id then acc else acc + CalculateFieldTo contrib o t) 0 }

/-- TiledWorldGenerator.CalculateField (lines 59-106): build the tree
over the world bounds, then process every tile in order, tracking the
largest field strength over the non-obstacle tiles.  The tracked scalar
is the squared magnitude; the code compares magnitudes, and the two
comparisons agree because the square root is monotone.  Returns the
updated world together with the tracked square. -/
def CalculateField (cfg : Config) (contrib : ℚ → ℚ → Vector2f → Vector2f)
    (Length Width : ℕ) (world : List Tile) : List Tile × ℚ :=
  let root := buildTree cfg Length Width world
  world.foldl
    (fun acc t =>
      let t' := processTile contrib root t
      (acc.1 ++ [t'],
        if t.type = TileType.ettObstructed then acc.2
        else if acc.2 < t'.LocalFieldValue.MagnitudeSq then t'.LocalFieldValue.MagnitudeSq
        else acc.2))
    ([], 0)

/-- The member largestFieldStrength as left by a CalculateField pass: the
magnitude (real square root) of the tracked squared maximum. -/
noncomputable def largestFieldStrength (cfg : Config)
    (contrib : ℚ → ℚ → Vector2f → Vector2f) (Length Width : ℕ)
    (world : List Tile) : ℝ :=
  Real.sqrt ((CalculateField cfg contrib Length Width world).2 : ℝ)

/-- TiledWorldGenerator.GenerateWorld (lines 187-225): one tile per grid
cell at position (lengthIndex, widthIndex), outer loop over lengthIndex.
The palette entry drawn by rand() for a cell is external nondeterminism
and is abstracted by the pick argument, which yields the selected
reference tile's type, field strength and field range.  The id renders
the address of the freshly allocated tile (distinct per cell).  The Tile
constructor of the missing header starts the accumulated field at
zero. -/
def GenerateWorld (Length Width : ℕ) (pick : ℕ → ℕ → TileType × ℚ × ℚ) : List Tile :=
  (List.range Length).flatMap fun lengthIndex =>
    (List.range Width).map fun widthIndex =>
      { id := lengthIndex * Width + widthIndex
        type := (pick lengthIndex widthIndex).1
        Location := ⟨(lengthIndex : ℚ), (widthIndex : ℚ)⟩
        FieldStrength := (pick lengthIndex widthIndex).2.1
        FieldRange := (pick lengthIndex widthIndex).2.2
        LocalFieldValue := 0 }

/-- Observable events of one CalculateField pass, for the temporal
claims: root construction, one insertion per tile, one query per
processed tile. -/
inductive Event where
  | construct (box : AABBf) (depth : ℕ)
  | insert (id : ℕ)
  | query (p : Vector2f)
deriving DecidableEq, Repr

/-- CalculateField instrumented with an event trace, emitting events in
the order the statements of lines 59-106 execute: the root construction
(line 66), one insertion per world tile (lines 68-71), then inside the
processing loop one query per non-obstacle tile (line 92). -/
def CalculateFieldT (cfg : Config) (contrib : ℚ → ℚ → Vector2f → Vector2f)
    (Length Width : ℕ) (world : List Tile) : (List Tile × ℚ) × List Event :=
  let start : Node × List Event :=
    (Node.leaf (worldBounds Length Width) 0 [],
      [Event.construct (worldBounds Length Width) 0])
  let built :=
    world.foldl
      (fun acc t => (Node.AddObject cfg cfg.maxDepth acc.1 t, acc.2 ++ [Event.insert t.id]))
      start
  let root := built.1
  world.foldl
    (fun acc t =>
      let t' := processTile contrib root t
      if t.type = TileType.ettObstructed then ((acc.1.1 ++ [t'], acc.1.2), acc.2)
      else
        ((acc.1.1 ++ [t'],
            if acc.1.2 < t'.LocalFieldValue.MagnitudeSq then t'.LocalFieldValue.MagnitudeSq
            else acc.1.2),
          acc.2 ++ [Event.query t.Location]))
    (([], 0), built.2)

/-- The TiledWorldGenerator object state relevant to the claims: grid
dimensions, the world collection and the rootNode pointer.  The pointer
is rendered as an Option: none models the constructor leaving the raw
pointer uninitialized (src/TiledWorldGenerator.h line 34 declares it and
the constructor at lines 36-43 never assigns it). -/
structure TiledWorldGenerator where
  Length : ℕ
  Width : ℕ
  world : List Tile
  rootNode : Option Node
deriving Repr

/-- The constructor TiledWorldGenerator::TiledWorldGenerator: dimensions
120 by 120, empty world, rootNode never assigned. -/
def mkTiledWorldGenerator : TiledWorldGenerator :=
  { Length := 120, Width := 120, world := [], rootNode := none }

/-- TiledWorldGenerator.Generate (lines 11-17) as far as the claims
observe it: NormaliseProbabilities touches only the palette, ClearWorld
empties the world and GenerateWorld refills it; rootNode is not
touched. -/
def TiledWorldGenerator.Generate (pick : ℕ → ℕ → TileType × ℚ × ℚ)
    (g : TiledWorldGenerator) : TiledWorldGenerator :=
  { g with world := GenerateWorld g.Length g.Width pick }

/-- TiledWorldGenerator.CalculateField as a state transition: the world
tiles get their new field values and rootNode is assigned the freshly
built tree (line 66). -/
def TiledWorldGenerator.CalculateFieldS (cfg : Config)
    (contrib : ℚ → ℚ → Vector2f → Vector2f) (g : TiledWorldGenerator) :
    TiledWorldGenerator :=
  { g with
      world := (CalculateField cfg contrib g.Length g.Width g.world).1
      rootNode := some (buildTree cfg g.Length g.Width g.world) }

/-- TiledWorldGenerator.ReturnSelectedNode (lines 227-230): dereference
rootNode and query it.  A none rootNode models the undefined dereference
of the uninitialized pointer, so the result is an Option. -/
def TiledWorldGenerator.ReturnSelectedNode (g : TiledWorldGenerator)
    (target : Vector2f) : Option (List Tile) :=
  g.rootNode.map fun n => n.FindTiles target

/-- Renaming of tile identities, rendering the fact that a rerun of the
program allocates the same tiles at different addresses. -/
def reId (f : ℕ → ℕ) (t : Tile) : Tile := { t with id := f t.id }

/-- Mapping a tile transformation over every content list of a tree. -/
def mapNode (f : Tile → Tile) : Node → Node
  | Node.leaf box d cs => Node.leaf box d (cs.map f)
  | Node.internal box d n0 n1 n2 n3 =>
      Node.internal box d (mapNode f n0) (mapNode f n1) (mapNode f n2) (mapNode f n3)

/-- Well-formedness of a tree: every internal node's children carry the
four quadrant boxes of their parent's box.  The trees CalculateField
builds satisfy it by construction. -/
def WF : Node → Prop
  | Node.leaf _ _ _ => True
  | Node.internal box _ n0 n1 n2 n3 =>
      n0.box = quad0 box ∧ n1.box = quad1 box ∧ n2.box = quad2 box ∧ n3.box = quad3 box ∧
        WF n0 ∧ WF n1 ∧ WF n2 ∧ WF n3

/-- The child of an internal node that a point query descends into,
abstracted out of Node.FindTiles for the proofs. -/
def selChild (box : AABBf) (p : Vector2f) (n0 n1 n2 n3 : Node) : Node :=
  if p.X < midX box then (if p.Y < midY box then n0 else n2)
  else (if p.Y < midY box then n1 else n3)

/-- Every tile stored anywhere in a tree. -/
def allTiles : Node → List Tile
  | Node.leaf _ _ cs => cs
  | Node.internal _ _ n0 n1 n2 n3 =>
      allTiles n0 ++ allTiles n1 ++ allTiles n2 ++ allTiles n3

/-- Example fixture: a free tile at the origin with no influence, as
produced by the Free palette entry of the generator's constructor. -/
def exFree : Tile :=
  { id := 0, type := TileType.ettFree, Location := ⟨0, 0⟩,
    FieldStrength := 0, FieldRange := 0, LocalFieldValue := 0 }

/-- Example fixture: an obstacle tile at (1,0) with the influence
parameters of the Obstructed palette entry of the generator's
constructor (strength 4, range 5). -/
def exObstacle : Tile :=
  { id := 1, type := TileType.ettObstructed, Location := ⟨1, 0⟩,
    FieldStrength := 4, FieldRange := 5, LocalFieldValue := 0 }

/-- Example fixture: an obstacle tile carrying a nonzero accumulated
field at the start of a pass. -/
def exObstacleCharged : Tile :=
  { id := 0, type := TileType.ettObstructed, Location := ⟨0, 0⟩,
    FieldStrength := 4, FieldRange := 5, LocalFieldValue := ⟨1, 1⟩ }

/-- Example fixture: an undesirable tile at (1,1). -/
def exUndesirableA : Tile :=
  { id := 2, type := TileType.ettUndesirable, Location := ⟨1, 1⟩,
    FieldStrength := 3, FieldRange := 10, LocalFieldValue := 0 }

/-- Example fixture: a second undesirable tile at exactly the same
position (1,1) but a distinct identity. -/
def exUndesirableB : Tile :=
  { id := 3, type := TileType.ettUndesirable, Location := ⟨1, 1⟩,
    FieldStrength := 3, FieldRange := 10, LocalFieldValue := 0 }

/-- Example fixture: a configuration with a high split threshold (no
split on the small example worlds). -/
def exConfig : Config := { splitThreshold := 4, minCellSize := 1, maxDepth := 8 }

/-- Example fixture: a configuration with split threshold 1, so the
two-tile example worlds force a split. -/
def exConfigSplit : Config := { splitThreshold := 1, minCellSize := 0, maxDepth := 3 }

/-! ## Component lemmas for the vector and box types -/

@[simp]
theorem Vector2f.add_X (a b : Vector2f) : (a + b).X = a.X + b.X := rfl

@[simp]
theorem Vector2f.add_Y (a b : Vector2f) : (a + b).Y = a.Y + b.Y := rfl

@[simp]
theorem Vector2f.sub_X (a b : Vector2f) : (a - b).X = a.X - b.X := rfl

@[simp]
theorem Vector2f.sub_Y (a b : Vector2f) : (a - b).Y = a.Y - b.Y := rfl

@[simp]
theorem Vector2f.zero_X : (0 : Vector2f).X = 0 := rfl

@[simp]
theorem Vector2f.zero_Y : (0 : Vector2f).Y = 0 := rfl

@[simp]
theorem Node.box_leaf (b : AABBf) (d : ℕ) (cs : List Tile) :
    (Node.leaf b d cs).box = b := rfl

@[simp]
theorem Node.box_internal (b : AABBf) (d : ℕ) (n0 n1 n2 n3 : Node) :
    (Node.internal b d n0 n1 n2 n3).box = b := rfl

/-! ## Equation lemmas for insertion -/

theorem AddObject_zero (cfg : Config) (n : Node) (t : Tile) :
    Node.AddObject cfg 0 n t = n.addAtCap t := rfl

theorem AddObject_succ_leaf (cfg : Config) (b : ℕ) (box : AABBf) (d : ℕ)
    (cs : List Tile) (t : Tile) :
    Node.AddObject cfg (b + 1) (Node.leaf box d cs) t =
      if splitCondition cfg box (cs ++ [t]) then
        redistribute (Node.AddObject cfg b) (cs ++ [t]) box d
          (Node.leaf (quad0 box) (d + 1) []) (Node.leaf (quad1 box) (d + 1) [])
          (Node.leaf (quad2 box) (d + 1) []) (Node.leaf (quad3 box) (d + 1) [])
      else Node.leaf box d (cs ++ [t]) := rfl

theorem AddObject_succ_internal (cfg : Config) (b : ℕ) (box : AABBf) (d : ℕ)
    (n0 n1 n2 n3 : Node) (t : Tile) :
    Node.AddObject cfg (b + 1) (Node.internal box d n0 n1 n2 n3) t =
      Node.internal box d
        (insertOverlapping (Node.AddObject cfg b) t n0)
        (insertOverlapping (Node.AddObject cfg b) t n1)
        (insertOverlapping (Node.AddObject cfg b) t n2)
        (insertOverlapping (Node.AddObject cfg b) t n3) := rfl

theorem redistribute_eq_foldl (f : Node → Tile → Node) (ts : List Tile)
    (box : AABBf) (d : ℕ) (n0 n1 n2 n3 : Node) :
    redistribute f ts box d n0 n1 n2 n3 =
      Node.internal box d
        (ts.foldl (fun n t => insertOverlapping f t n) n0)
        (ts.foldl (fun n t => insertOverlapping f t n) n1)
        (ts.foldl (fun n t => insertOverlapping f t n) n2)
        (ts.foldl (fun n t => insertOverlapping f t n) n3) := by
  induction ts generalizing n0 n1 n2 n3 with
  | nil => rfl
  | cons t ts ih => simp [redistribute, ih, List.foldl_cons]

theorem insertOverlapping_box (f : Node → Tile → Node)
    (hf : ∀ n t, (f n t).box = n.box) (t : Tile) (n : Node) :
    (insertOverlapping f t n).box = n.box := by
  unfold insertOverlapping
  split <;> simp [hf]

theorem foldl_insertOverlapping_box (f : Node → Tile → Node)
    (hf : ∀ n t, (f n t).box = n.box) (ts : List Tile) (n : Node) :
    (ts.foldl (fun n t => insertOverlapping f t n) n).box = n.box := by
  induction ts generalizing n with
  | nil => rfl
  | cons t ts ih => rw [List.foldl_cons, ih, insertOverlapping_box f hf]

theorem addAtCap_box (n : Node) (t : Tile) : (n.addAtCap t).box = n.box := by
  cases n <;> simp [Node.addAtCap]

theorem AddObject_box (cfg : Config) (b : ℕ) (n : Node) (t : Tile) :
    (Node.AddObject cfg b n t).box = n.box := by
  cases b with
  | zero => rw [AddObject_zero]; exact addAtCap_box n t
  | succ b =>
      cases n with
      | leaf box d cs =>
          rw [AddObject_succ_leaf]
          split
          · rw [redistribute_eq_foldl]; rfl
          · rfl
      | internal box d n0 n1 n2 n3 => rw [AddObject_succ_internal]; rfl

/-! ## Well-formedness is preserved by insertion -/

theorem addAtCap_WF (n : Node) (t : Tile) (h : WF n) : WF (n.addAtCap t) := by
  induction n with
  | leaf box d cs => trivial
  | internal box d n0 n1 n2 n3 ih0 ih1 ih2 ih3 =>
      obtain ⟨hb0, hb1, hb2, hb3, h0, h1, h2, h3⟩ := h
      refine ⟨?_, ?_, ?_, ?_, ?_, ?_, ?_, ?_⟩ <;> split <;>
        first
          | (rw [addAtCap_box]; assumption)
          | assumption
          | exact ih0 h0
          | exact ih1 h1
          | exact ih2 h2
          | exact ih3 h3

theorem foldl_insertOverlapping_WF (f : Node → Tile → Node)
    (_hfb : ∀ n t, (f n t).box = n.box) (hfw : ∀ n t, WF n → WF (f n t))
    (ts : List Tile) (n : Node) (h : WF n) :
    WF (ts.foldl (fun n t => insertOverlapping f t n) n) := by
  induction ts generalizing n with
  | nil => exact h
  | cons t ts ih =>
      rw [List.foldl_cons]
      refine ih _ ?_
      unfold insertOverlapping
      split
      · exact hfw _ _ h
      · exact h

theorem AddObject_WF (cfg : Config) (b : ℕ) (n : Node) (t : Tile) (h : WF n) :
    WF (Node.AddObject cfg b n t) := by
  induction b generalizing n t with
  | zero => rw [AddObject_zero]; exact addAtCap_WF n t h
  | succ b ih =>
      cases n with
      | leaf box d cs =>
          rw [AddObject_succ_leaf]
          split
          · rw [redistribute_eq_foldl]
            refine ⟨?_, ?_, ?_, ?_, ?_, ?_, ?_, ?_⟩ <;>
              first
                | exact foldl_insertOverlapping_box _ (fun n u => AddObject_box cfg b n u) _ _
                | exact foldl_insertOverlapping_WF _ (fun n u => AddObject_box cfg b n u)
                    (fun n u hn => ih n u hn) _ _ trivial
          · trivial
      | internal box d n0 n1 n2 n3 =>
          obtain ⟨hb0, hb1, hb2, hb3, h0, h1, h2, h3⟩ := h
          rw [AddObject_succ_internal]
          refine ⟨?_, ?_, ?_, ?_, ?_, ?_, ?_, ?_⟩ <;>
            unfold insertOverlapping <;> split <;>
            first
              | (rw [AddObject_box]; assumption)
              | assumption
              | exact ih n0 t h0
              | exact ih n1 t h1
              | exact ih n2 t h2
              | exact ih n3 t h3

/-! ## Geometry of the quadrant selection -/

theorem FindTiles_internal (box : AABBf) (d : ℕ) (n0 n1 n2 n3 : Node) (p : Vector2f) :
    (Node.internal box d n0 n1 n2 n3).FindTiles p = (selChild box p n0 n1 n2 n3).FindTiles p := by
  by_cases hx : p.X < midX box <;> by_cases hy : p.Y < midY box <;>
    simp [Node.FindTiles, selChild, hx, hy]

theorem selChild_map (box : AABBf) (p : Vector2f) (g : Node → Node) (n0 n1 n2 n3 : Node) :
    selChild box p (g n0) (g n1) (g n2) (g n3) = g (selChild box p n0 n1 n2 n3) := by
  unfold selChild
  split <;> split <;> rfl

theorem selChild_cases (box : AABBf) (p : Vector2f) (n0 n1 n2 n3 : Node) :
    selChild box p n0 n1 n2 n3 = n0 ∨ selChild box p n0 n1 n2 n3 = n1 ∨
      selChild box p n0 n1 n2 n3 = n2 ∨ selChild box p n0 n1 n2 n3 = n3 := by
  unfold selChild
  split <;> split <;> tauto

theorem selChild_contains (box : AABBf) (p : Vector2f) (n0 n1 n2 n3 : Node)
    (hb0 : n0.box = quad0 box) (hb1 : n1.box = quad1 box)
    (hb2 : n2.box = quad2 box) (hb3 : n3.box = quad3 box)
    (hp : containsPoint box p) :
    containsPoint (selChild box p n0 n1 n2 n3).box p := by
  obtain ⟨h1, h2, h3, h4⟩ := hp
  unfold selChild
  split <;> split <;>
    first
      | exact hb0 ▸ ⟨h1, le_of_lt (by assumption), h3, le_of_lt (by assumption)⟩
      | exact hb1 ▸ ⟨le_of_not_lt (by assumption), h2, h3, le_of_lt (by assumption)⟩
      | exact hb2 ▸ ⟨h1, le_of_lt (by assumption), le_of_not_lt (by assumption), h4⟩
      | exact hb3 ▸ ⟨le_of_not_lt (by assumption), h2, le_of_not_lt (by assumption), h4⟩

theorem intersects_of_containsPoint (a b : AABBf) (p : Vector2f)
    (ha : containsPoint a p) (hb : containsPoint b p) : intersects a b :=
  ⟨le_trans ha.1 hb.2.1, le_trans hb.1 ha.2.1,
    le_trans ha.2.2.1 hb.2.2.2, le_trans hb.2.2.1 ha.2.2.2⟩

/-! ## The inserted tile is found by a query at any point of its box -/

theorem mem_FindTiles_addAtCap (n : Node) (t : Tile) (p : Vector2f) (hWF : WF n)
    (hn : containsPoint n.box p) (ht : containsPoint (tileBounds t) p) :
    t ∈ (n.addAtCap t).FindTiles p := by
  induction n with
  | leaf box d cs => simp [Node.addAtCap, Node.FindTiles]
  | internal box d n0 n1 n2 n3 ih0 ih1 ih2 ih3 =>
      obtain ⟨hb0, hb1, hb2, hb3, h0, h1, h2, h3⟩ := hWF
      show t ∈ (Node.internal box d _ _ _ _).FindTiles p
      rw [FindTiles_internal,
        selChild_map box p (fun n => if intersects n.box (tileBounds t) then n.addAtCap t else n)]
      have hsel := selChild_contains box p n0 n1 n2 n3 hb0 hb1 hb2 hb3 hn
      have hint : intersects (selChild box p n0 n1 n2 n3).box (tileBounds t) :=
        intersects_of_containsPoint _ _ p hsel ht
      rw [if_pos hint]
      rcases selChild_cases box p n0 n1 n2 n3 with h | h | h | h <;> rw [h] at hsel ⊢
      · exact ih0 h0 hsel
      · exact ih1 h1 hsel
      · exact ih2 h2 hsel
      · exact ih3 h3 hsel

theorem mem_FindTiles_addAtCap_other (n : Node) (u t : Tile) (p : Vector2f) (hWF : WF n)
    (hn : containsPoint n.box p) (hmem : t ∈ n.FindTiles p) :
    t ∈ (n.addAtCap u).FindTiles p := by
  induction n with
  | leaf box d cs =>
      simp only [Node.FindTiles] at hmem
      simp [Node.addAtCap, Node.FindTiles, hmem]
  | internal box d n0 n1 n2 n3 ih0 ih1 ih2 ih3 =>
      obtain ⟨hb0, hb1, hb2, hb3, h0, h1, h2, h3⟩ := hWF
      rw [FindTiles_internal] at hmem
      show t ∈ (Node.internal box d _ _ _ _).FindTiles p
      rw [FindTiles_internal,
        selChild_map box p (fun n => if intersects n.box (tileBounds u) then n.addAtCap u else n)]
      have hsel := selChild_contains box p n0 n1 n2 n3 hb0 hb1 hb2 hb3 hn
      split
      · rcases selChild_cases box p n0 n1 n2 n3 with h | h | h | h <;> rw [h] at hsel hmem ⊢
        · exact ih0 h0 hsel hmem
        · exact ih1 h1 hsel hmem
        · exact ih2 h2 hsel hmem
        · exact ih3 h3 hsel hmem
      · exact hmem

theorem insertOverlapping_WF (cfg : Config) (b : ℕ) (u : Tile) (n : Node) (h : WF n) :
    WF (insertOverlapping (Node.AddObject cfg b) u n) := by
  unfold insertOverlapping
  split
  · exact AddObject_WF cfg b n u h
  · exact h

theorem mem_FindTiles_foldl_aux (cfg : Config) (b : ℕ)
    (hINS : ∀ n t p, WF n → containsPoint n.box p → containsPoint (tileBounds t) p →
        t ∈ (Node.AddObject cfg b n t).FindTiles p)
    (hPRES : ∀ n u t p, WF n → containsPoint n.box p → containsPoint (tileBounds t) p →
        t ∈ n.FindTiles p → t ∈ (Node.AddObject cfg b n u).FindTiles p)
    (ts : List Tile) (n : Node) (t : Tile) (p : Vector2f)
    (hWF : WF n) (hn : containsPoint n.box p) (ht : containsPoint (tileBounds t) p)
    (h : t ∈ ts ∨ t ∈ n.FindTiles p) :
    t ∈ ((ts.foldl (fun m u => insertOverlapping (Node.AddObject cfg b) u m) n)).FindTiles p := by
  induction ts generalizing n with
  | nil =>
      rcases h with h | h
      · exact absurd h (List.not_mem_nil t)
      · exact h
  | cons u ts ih =>
      rw [List.foldl_cons]
      have hbox' : (insertOverlapping (Node.AddObject cfg b) u n).box = n.box :=
        insertOverlapping_box _ (fun m v => AddObject_box cfg b m v) u n
      refine ih _ (insertOverlapping_WF cfg b u n hWF) (hbox' ▸ hn) ?_
      rcases h with h | h
      · rcases List.mem_cons.mp h with h | h
        · subst h
          refine Or.inr ?_
          have hint : intersects n.box (tileBounds t) :=
            intersects_of_containsPoint _ _ p hn ht
          unfold insertOverlapping
          rw [if_pos hint]
          exact hINS n t p hWF hn ht
        · exact Or.inl h
      · refine Or.inr ?_
        unfold insertOverlapping
        split
        · exact hPRES n u t p hWF hn ht h
        · exact h

theorem mem_FindTiles_AddObject_both (cfg : Config) (b : ℕ) :
    (∀ n t p, WF n → containsPoint n.box p → containsPoint (tileBounds t) p →
        t ∈ (Node.AddObject cfg b n t).FindTiles p) ∧
    (∀ n u t p, WF n → containsPoint n.box p → containsPoint (tileBounds t) p →
        t ∈ n.FindTiles p → t ∈ (Node.AddObject cfg b n u).FindTiles p) := by
  induction b with
  | zero =>
      constructor
      · intro n t p hWF hn ht
        rw [AddObject_zero]
        exact mem_FindTiles_addAtCap n t p hWF hn ht
      · intro n u t p hWF hn _ hmem
        rw [AddObject_zero]
        exact mem_FindTiles_addAtCap_other n u t p hWF hn hmem
  | succ b ih =>
      obtain ⟨ihI, ihP⟩ := ih
      constructor
      · intro n t p hWF hn ht
        cases n with
        | leaf box d cs =>
            rw [AddObject_succ_leaf]
            split
            · rw [redistribute_eq_foldl, FindTiles_internal,
                selChild_map box p
                  (fun m => (cs ++ [t]).foldl
                    (fun n u => insertOverlapping (Node.AddObject cfg b) u n) m)]
              refine mem_FindTiles_foldl_aux cfg b ihI ihP (cs ++ [t]) _ t p ?_ ?_ ht
                  (Or.inl (by simp))
              · rcases selChild_cases box p (Node.leaf (quad0 box) (d + 1) [])
                    (Node.leaf (quad1 box) (d + 1) []) (Node.leaf (quad2 box) (d + 1) [])
                    (Node.leaf (quad3 box) (d + 1) []) with h | h | h | h <;> rw [h] <;> trivial
              · exact selChild_contains box p _ _ _ _ rfl rfl rfl rfl hn
            · simp [Node.FindTiles]
        | internal box d n0 n1 n2 n3 =>
            obtain ⟨hb0, hb1, hb2, hb3, h0, h1, h2, h3⟩ := hWF
            rw [AddObject_succ_internal, FindTiles_internal,
              selChild_map box p (insertOverlapping (Node.AddObject cfg b) t)]
            have hsel := selChild_contains box p n0 n1 n2 n3 hb0 hb1 hb2 hb3 hn
            have hint : intersects (selChild box p n0 n1 n2 n3).box (tileBounds t) :=
              intersects_of_containsPoint _ _ p hsel ht
            unfold insertOverlapping
            rw [if_pos hint]
            rcases selChild_cases box p n0 n1 n2 n3 with h | h | h | h <;> rw [h] at hsel ⊢
            · exact ihI n0 t p h0 hsel ht
            · exact ihI n1 t p h1 hsel ht
            · exact ihI n2 t p h2 hsel ht
            · exact ihI n3 t p h3 hsel ht
      · intro n u t p hWF hn ht hmem
        cases n with
        | leaf box d cs =>
            rw [AddObject_succ_leaf]
            simp only [Node.FindTiles] at hmem
            split
            · rw [redistribute_eq_foldl, FindTiles_internal,
                selChild_map box p
                  (fun m => (cs ++ [u]).foldl
                    (fun n v => insertOverlapping (Node.AddObject cfg b) v n) m)]
              refine mem_FindTiles_foldl_aux cfg b ihI ihP (cs ++ [u]) _ t p ?_ ?_ ht
                  (Or.inl (by simp [hmem]))
              · rcases selChild_cases box p (Node.leaf (quad0 box) (d + 1) [])
                    (Node.leaf (quad1 box) (d + 1) []) (Node.leaf (quad2 box) (d + 1) [])
                    (Node.leaf (quad3 box) (d + 1) []) with h | h | h | h <;> rw [h] <;> trivial
              · exact selChild_contains box p _ _ _ _ rfl rfl rfl rfl hn
            · simp [Node.FindTiles, hmem]
        | internal box d n0 n1 n2 n3 =>
            obtain ⟨hb0, hb1, hb2, hb3, h0, h1, h2, h3⟩ := hWF
            rw [FindTiles_internal] at hmem
            rw [AddObject_succ_internal, FindTiles_internal,
              selChild_map box p (insertOverlapping (Node.AddObject cfg b) u)]
            have hsel := selChild_contains box p n0 n1 n2 n3 hb0 hb1 hb2 hb3 hn
            unfold insertOverlapping
            split
            · rcases selChild_cases box p n0 n1 n2 n3 with h | h | h | h <;>
                rw [h] at hsel hmem ⊢
              · exact ihP n0 u t p h0 hsel ht hmem
              · exact ihP n1 u t p h1 hsel ht hmem
              · exact ihP n2 u t p h2 hsel ht hmem
              · exact ihP n3 u t p h3 hsel ht hmem
            · exact hmem

theorem foldl_AddObject_box (cfg : Config) (l : List Tile) (n : Node) :
    (l.foldl (fun m u => Node.AddObject cfg cfg.maxDepth m u) n).box = n.box := by
  induction l generalizing n with
  | nil => rfl
  | cons u l ih => rw [List.foldl_cons, ih, AddObject_box]

theorem foldl_AddObject_WF (cfg : Config) (l : List Tile) (n : Node) (h : WF n) :
    WF (l.foldl (fun m u => Node.AddObject cfg cfg.maxDepth m u) n) := by
  induction l generalizing n with
  | nil => exact h
  | cons u l ih => exact ih _ (AddObject_WF cfg cfg.maxDepth n u h)

theorem foldl_AddObject_preserve (cfg : Config) (l : List Tile) (n : Node)
    (t : Tile) (p : Vector2f) (hWF : WF n) (hn : containsPoint n.box p)
    (ht : containsPoint (tileBounds t) p) (hmem : t ∈ n.FindTiles p) :
    t ∈ (l.foldl (fun m u => Node.AddObject cfg cfg.maxDepth m u) n).FindTiles p := by
  induction l generalizing n with
  | nil => exact hmem
  | cons u l ih =>
      rw [List.foldl_cons]
      refine ih _ (AddObject_WF cfg cfg.maxDepth n u hWF)
        ((AddObject_box cfg cfg.maxDepth n u) ▸ hn) ?_
      exact (mem_FindTiles_AddObject_both cfg cfg.maxDepth).2 n u t p hWF hn ht hmem

theorem containsPoint_tileBounds_self (t : Tile) (hr : 0 ≤ t.FieldRange) :
    containsPoint (tileBounds t) t.Location := by
  unfold tileBounds containsPoint
  simp only [Vector2f.sub_X, Vector2f.sub_Y, Vector2f.add_X, Vector2f.add_Y]
  refine ⟨by linarith, by linarith, by linarith, by linarith⟩

theorem buildTree_WF (cfg : Config) (Length Width : ℕ) (world : List Tile) :
    WF (buildTree cfg Length Width world) :=
  foldl_AddObject_WF cfg world _ trivial

theorem buildTree_box (cfg : Config) (Length Width : ℕ) (world : List Tile) :
    (buildTree cfg Length Width world).box = worldBounds Length Width :=
  foldl_AddObject_box cfg world _

/-- Claim C3: a tile inserted into the index during a build pass is
returned by a query at its own exact position, under the spec's
in-bounds contract (the tile's location lies in the world bounds) and a
nonnegative influence range. -/
theorem inserted_tile_found_at_its_location (cfg : Config) (Length Width : ℕ)
    (world : List Tile) (t : Tile) (hmem : t ∈ world)
    (hin : containsPoint (worldBounds Length Width) t.Location)
    (hr : 0 ≤ t.FieldRange) :
    t ∈ (buildTree cfg Length Width world).FindTiles t.Location := by
  obtain ⟨l1, l2, rfl⟩ := List.append_of_mem hmem
  unfold buildTree
  rw [List.foldl_append, List.foldl_cons]
  have ht := containsPoint_tileBounds_self t hr
  set n1 := l1.foldl (fun m u => Node.AddObject cfg cfg.maxDepth m u)
    (Node.leaf (worldBounds Length Width) 0 []) with hn1
  have hWF1 : WF n1 := foldl_AddObject_WF cfg l1 _ trivial
  have hbox1 : n1.box = worldBounds Length Width := foldl_AddObject_box cfg l1 _
  refine foldl_AddObject_preserve cfg l2 _ t t.Location
    (AddObject_WF cfg cfg.maxDepth n1 t hWF1)
    ((AddObject_box cfg cfg.maxDepth n1 t) ▸ hbox1 ▸ hin) ht ?_
  exact (mem_FindTiles_AddObject_both cfg cfg.maxDepth).1 n1 t t.Location hWF1
    (hbox1 ▸ hin) ht

/-! ## Soundness: every queried candidate was inserted -/

theorem mem_allTiles_of_mem_FindTiles (n : Node) (t : Tile) (p : Vector2f)
    (h : t ∈ n.FindTiles p) : t ∈ allTiles n := by
  induction n with
  | leaf box d cs => exact h
  | internal box d n0 n1 n2 n3 ih0 ih1 ih2 ih3 =>
      rw [FindTiles_internal] at h
      show t ∈ allTiles n0 ++ allTiles n1 ++ allTiles n2 ++ allTiles n3
      rcases selChild_cases box p n0 n1 n2 n3 with hs | hs | hs | hs <;> rw [hs] at h <;>
        simp only [List.mem_append] <;> tauto

theorem allTiles_addAtCap_subset (n : Node) (t u : Tile)
    (h : u ∈ allTiles (n.addAtCap t)) : u ∈ allTiles n ∨ u = t := by
  induction n with
  | leaf box d cs => simpa [Node.addAtCap, allTiles] using h
  | internal box d n0 n1 n2 n3 ih0 ih1 ih2 ih3 =>
      simp only [Node.addAtCap, allTiles, List.mem_append] at h
      show u ∈ allTiles n0 ++ allTiles n1 ++ allTiles n2 ++ allTiles n3 ∨ u = t
      simp only [List.mem_append]
      rcases h with ((h | h) | h) | h
      · split at h
        · rcases ih0 h with h | h <;> tauto
        · tauto
      · split at h
        · rcases ih1 h with h | h <;> tauto
        · tauto
      · split at h
        · rcases ih2 h with h | h <;> tauto
        · tauto
      · split at h
        · rcases ih3 h with h | h <;> tauto
        · tauto

theorem foldl_insertOverlapping_allTiles_subset (cfg : Config) (b : ℕ) (u : Tile)
    (hsub : ∀ n t, u ∈ allTiles (Node.AddObject cfg b n t) → u ∈ allTiles n ∨ u = t)
    (ts : List Tile) (n : Node)
    (h : u ∈ allTiles (ts.foldl (fun m v => insertOverlapping (Node.AddObject cfg b) v m) n)) :
    u ∈ allTiles n ∨ u ∈ ts := by
  induction ts generalizing n with
  | nil => exact Or.inl h
  | cons v ts ih =>
      rw [List.foldl_cons] at h
      rcases ih _ h with h' | h'
      · unfold insertOverlapping at h'
        split at h'
        · rcases hsub n v h' with h'' | h''
          · exact Or.inl h''
          · exact Or.inr (by simp [h''])
        · exact Or.inl h'
      · exact Or.inr (List.mem_cons_of_mem v h')

theorem allTiles_AddObject_subset (cfg : Config) (b : ℕ) (n : Node) (t u : Tile)
    (h : u ∈ allTiles (Node.AddObject cfg b n t)) : u ∈ allTiles n ∨ u = t := by
  induction b generalizing n t with
  | zero => exact allTiles_addAtCap_subset n t u (by rwa [AddObject_zero] at h)
  | succ b ih =>
      cases n with
      | leaf box d cs =>
          rw [AddObject_succ_leaf] at h
          split at h
          · rw [redistribute_eq_foldl] at h
            simp only [allTiles, List.mem_append] at h
            rcases h with ((h | h) | h) | h <;>
              rcases foldl_insertOverlapping_allTiles_subset cfg b u ih (cs ++ [t]) _ h with
                h' | h' <;>
              simp_all [allTiles]
          · simpa [allTiles] using h
      | internal box d n0 n1 n2 n3 =>
          rw [AddObject_succ_internal] at h
          simp only [allTiles, List.mem_append] at h
          show u ∈ allTiles n0 ++ allTiles n1 ++ allTiles n2 ++ allTiles n3 ∨ u = t
          simp only [List.mem_append]
          rcases h with ((h | h) | h) | h <;>
            · unfold insertOverlapping at h
              split at h
              · rcases ih _ _ h with h' | h' <;> tauto
              · tauto

theorem mem_world_of_mem_FindTiles (cfg : Config) (Length Width : ℕ)
    (world : List Tile) (u : Tile) (p : Vector2f)
    (h : u ∈ (buildTree cfg Length Width world).FindTiles p) : u ∈ world := by
  have h' := mem_allTiles_of_mem_FindTiles _ u p h
  unfold buildTree at h'
  clear h
  induction world using List.reverseRecOn with
  | nil => simp [allTiles] at h'
  | append_singleton l v ih =>
      rw [List.foldl_append, List.foldl_cons, List.foldl_nil] at h'
      rcases allTiles_AddObject_subset cfg cfg.maxDepth _ v u h' with h'' | h''
      · exact List.mem_append_left _ (ih h'')
      · simp [h'']

/-! ## The aggregation loop as a filtered sum -/

theorem foldl_skip_sum (t : Tile) (g : Tile → Vector2f) (l : List Tile) (acc : Vector2f) :
    l.foldl (fun acc o => if o.id = t.id then acc else acc + g o) acc =
      acc + ((l.filter (fun o => o.id ≠ t.id)).map g).sum := by
  induction l generalizing acc with
  | nil => simp
  | cons o l ih =>
      by_cases h : o.id = t.id
      · simp [h, ih]
      · simp only [List.foldl_cons, if_neg h, ih, List.filter_cons]
        simp [h, add_assoc]

theorem processTile_obstacle (contrib : ℚ → ℚ → Vector2f → Vector2f) (root : Node)
    (t : Tile) (h : t.type = TileType.ettObstructed) :
    processTile contrib root t = { t with LocalFieldValue := 0 } := by
  simp [processTile, h]

theorem processTile_nonobstacle (contrib : ℚ → ℚ → Vector2f → Vector2f) (root : Node)
    (t : Tile) (h : ¬t.type = TileType.ettObstructed) :
    processTile contrib root t =
      { t with
          LocalFieldValue :=
            (((root.FindTiles t.Location).filter (fun o => o.id ≠ t.id)).map
              (fun o => CalculateFieldTo contrib o t)).sum } := by
  simp only [processTile, if_neg h]
  rw [foldl_skip_sum]
  simp

theorem processTile_type (contrib : ℚ → ℚ → Vector2f → Vector2f) (root : Node) (t : Tile) :
    (processTile contrib root t).type = t.type := by
  unfold processTile
  split <;> rfl

theorem processTile_id (contrib : ℚ → ℚ → Vector2f → Vector2f) (root : Node) (t : Tile) :
    (processTile contrib root t).id = t.id := by
  unfold processTile
  split <;> rfl

theorem processTile_Location (contrib : ℚ → ℚ → Vector2f → Vector2f) (root : Node) (t : Tile) :
    (processTile contrib root t).Location = t.Location := by
  unfold processTile
  split <;> rfl

/-! ## Projections of the CalculateField fold -/

theorem CalculateField_loop_fst (contrib : ℚ → ℚ → Vector2f → Vector2f) (root : Node)
    (l : List Tile) (a : List Tile) (m : ℚ) :
    (l.foldl
      (fun acc t =>
        let t' := processTile contrib root t
        (acc.1 ++ [t'],
          if t.type = TileType.ettObstructed then acc.2
          else if acc.2 < t'.LocalFieldValue.MagnitudeSq then t'.LocalFieldValue.MagnitudeSq
          else acc.2))
      (a, m)).1 = a ++ l.map (processTile contrib root) := by
  induction l generalizing a m with
  | nil => simp
  | cons t l ih => simp [ih]

theorem CalculateField_loop_snd (contrib : ℚ → ℚ → Vector2f → Vector2f) (root : Node)
    (l : List Tile) (a : List Tile) (m : ℚ) :
    (l.foldl
      (fun acc t =>
        let t' := processTile contrib root t
        (acc.1 ++ [t'],
          if t.type = TileType.ettObstructed then acc.2
          else if acc.2 < t'.LocalFieldValue.MagnitudeSq then t'.LocalFieldValue.MagnitudeSq
          else acc.2))
      (a, m)).2 =
      l.foldl
        (fun m t =>
          if t.type = TileType.ettObstructed then m
          else if m < (processTile contrib root t).LocalFieldValue.MagnitudeSq then
            (processTile contrib root t).LocalFieldValue.MagnitudeSq
          else m)
        m := by
  induction l generalizing a m with
  | nil => rfl
  | cons t l ih => simp [ih]

theorem CalculateField_fst (cfg : Config) (contrib : ℚ → ℚ → Vector2f → Vector2f)
    (Length Width : ℕ) (world : List Tile) :
    (CalculateField cfg contrib Length Width world).1 =
      world.map (processTile contrib (buildTree cfg Length Width world)) := by
  unfold CalculateField
  rw [CalculateField_loop_fst]
  simp

theorem CalculateField_snd (cfg : Config) (contrib : ℚ → ℚ → Vector2f → Vector2f)
    (Length Width : ℕ) (world : List Tile) :
    (CalculateField cfg contrib Length Width world).2 =
      world.foldl
        (fun m t =>
          if t.type = TileType.ettObstructed then m
          else if m <
              (processTile contrib (buildTree cfg Length Width world) t).LocalFieldValue.MagnitudeSq
            then (processTile contrib (buildTree cfg Length Width world) t).LocalFieldValue.MagnitudeSq
          else m)
        0 := by
  unfold CalculateField
  rw [CalculateField_loop_snd]

theorem CalculateFieldTo_congr_target (contrib : ℚ → ℚ → Vector2f → Vector2f)
    (o t1 t2 : Tile) (h : t1.Location = t2.Location) :
    CalculateFieldTo contrib o t1 = CalculateFieldTo contrib o t2 := by
  unfold CalculateFieldTo
  rw [h]

/-- Shared characterization: the field a pass computes for a non-obstacle
tile is the sum of the pluggable contribution over every queried
candidate whose identity differs from the processed tile's. -/
theorem field_char (cfg : Config) (contrib : ℚ → ℚ → Vector2f → Vector2f)
    (Length Width : ℕ) (world : List Tile) (t' : Tile)
    (ht' : t' ∈ (CalculateField cfg contrib Length Width world).1)
    (hno : ¬t'.type = TileType.ettObstructed) :
    t'.LocalFieldValue =
      ((((buildTree cfg Length Width world).FindTiles t'.Location).filter
          (fun o => o.id ≠ t'.id)).map
        (fun o => CalculateFieldTo contrib o t')).sum := by
  rw [CalculateField_fst] at ht'
  obtain ⟨t, htw, rfl⟩ := List.mem_map.mp ht'
  have hnt : ¬t.type = TileType.ettObstructed := by
    rwa [processTile_type] at hno
  rw [processTile_nonobstacle _ _ _ hnt]
  rfl

/-- Claim C4: the candidate skipped by the aggregation loop is exactly
the one with the processed tile's identity; every candidate with a
different identity is kept, even one at the identical position. -/
theorem self_excluded_by_identity (cfg : Config) (contrib : ℚ → ℚ → Vector2f → Vector2f)
    (Length Width : ℕ) (world : List Tile) :
    ∀ t' ∈ (CalculateField cfg contrib Length Width world).1,
      ¬t'.type = TileType.ettObstructed →
        t'.LocalFieldValue =
          ((((buildTree cfg Length Width world).FindTiles t'.Location).filter
              (fun o => o.id ≠ t'.id)).map
            (fun o => CalculateFieldTo contrib o t')).sum ∧
        ∀ u ∈ (buildTree cfg Length Width world).FindTiles t'.Location,
          u.id ≠ t'.id →
            u ∈ ((buildTree cfg Length Width world).FindTiles t'.Location).filter
              (fun o => o.id ≠ t'.id) := by
  intro t' ht' hno
  refine ⟨field_char cfg contrib Length Width world t' ht' hno, ?_⟩
  intro u hu hne
  simp [List.mem_filter, hu, hne]

theorem sum_map_filter_split {M : Type} [AddCommMonoid M] (l : List Tile)
    (p q : Tile → Prop) [DecidablePred p] [DecidablePred q] (g : Tile → M) :
    ((l.filter (fun o => p o)).map g).sum =
      ((l.filter (fun o => p o ∧ q o)).map g).sum +
        ((l.filter (fun o => p o ∧ ¬q o)).map g).sum := by
  induction l with
  | nil => simp
  | cons o l ih =>
      by_cases hp : p o
      · by_cases hq : q o
        · simp [List.filter_cons, hp, hq, ih, add_assoc]
        · simp [List.filter_cons, hp, hq, ih, add_left_comm]
      · simp [List.filter_cons, hp, ih]

/-- Claim C1 (amended): the pairwise sum computed for a non-obstacle tile
draws on every non-self candidate, the obstacle-flagged candidates
included; it splits into the non-obstacle part plus the obstacle part. -/
theorem field_sums_all_candidates_including_obstacles (cfg : Config)
    (contrib : ℚ → ℚ → Vector2f → Vector2f) (Length Width : ℕ) (world : List Tile) :
    ∀ t' ∈ (CalculateField cfg contrib Length Width world).1,
      ¬t'.type = TileType.ettObstructed →
        t'.LocalFieldValue =
          ((((buildTree cfg Length Width world).FindTiles t'.Location).filter
              (fun o => o.id ≠ t'.id ∧ ¬o.type = TileType.ettObstructed)).map
            (fun o => CalculateFieldTo contrib o t')).sum +
          ((((buildTree cfg Length Width world).FindTiles t'.Location).filter
              (fun o => o.id ≠ t'.id ∧ o.type = TileType.ettObstructed)).map
            (fun o => CalculateFieldTo contrib o t')).sum := by
  intro t' ht' hno
  rw [field_char cfg contrib Length Width world t' ht' hno,
    sum_map_filter_split _ (fun o => o.id ≠ t'.id) (fun o => o.type = TileType.ettObstructed),
    add_comm]

/-- Claim C1 as stated is false on the code: with the palette's own
Obstructed parameters (strength 4, range 5), an obstacle candidate
within range contributes a nonzero vector to a free tile's field, so the
sum is not the sum over non-obstacle candidates only. -/
theorem obstacles_never_contribute_refuted :
    ¬∀ (cfg : Config) (contrib : ℚ → ℚ → Vector2f → Vector2f) (Length Width : ℕ)
        (world : List Tile),
      ∀ t' ∈ (CalculateField cfg contrib Length Width world).1,
        ¬t'.type = TileType.ettObstructed →
          t'.LocalFieldValue =
            ((((buildTree cfg Length Width world).FindTiles t'.Location).filter
                (fun o => o.id ≠ t'.id ∧ ¬o.type = TileType.ettObstructed)).map
              (fun o => CalculateFieldTo contrib o t')).sum := by
  intro h
  have h3 := h exConfig inverseFalloff 2 2 [exFree, exObstacle]
    (processTile inverseFalloff (buildTree exConfig 2 2 [exFree, exObstacle]) exFree)
    (of_decide_eq_true (by with_unfolding_all rfl))
    (of_decide_eq_true (by with_unfolding_all rfl))
  exact absurd h3 (of_decide_eq_false (by with_unfolding_all rfl))

/-- Claim C2 (amended): a pass resets an obstacle tile's accumulated
field to zero (the reset at line 77 runs before the obstacle check at
line 84), and the obstacle receives no contributions, so its field after
the pass is the zero vector whatever it started with. -/
theorem obstacle_field_reset_to_zero (cfg : Config)
    (contrib : ℚ → ℚ → Vector2f → Vector2f) (Length Width : ℕ) (world : List Tile) :
    ∀ (i : ℕ) (t : Tile), world[i]? = some t → t.type = TileType.ettObstructed →
      ((CalculateField cfg contrib Length Width world).1)[i]? =
        some { t with LocalFieldValue := 0 } := by
  intro i t hi ht
  rw [CalculateField_fst, List.getElem?_map, hi]
  simp [processTile_obstacle _ _ _ ht]

/-- Claim C2 as stated is false on the code: an obstacle tile entering
the pass with a nonzero accumulated field leaves the pass with the zero
vector, not its starting value, because the per-tile reset runs before
the obstacle check. -/
theorem obstacle_field_unchanged_refuted :
    ¬∀ (cfg : Config) (contrib : ℚ → ℚ → Vector2f → Vector2f) (Length Width : ℕ)
        (world : List Tile),
      ∀ (i : ℕ) (t : Tile), world[i]? = some t → t.type = TileType.ettObstructed →
        ∃ t', ((CalculateField cfg contrib Length Width world).1)[i]? = some t' ∧
          t'.LocalFieldValue = t.LocalFieldValue := by
  intro h
  obtain ⟨t', ht', heq⟩ := h exConfig inverseFalloff 2 2 [exObstacleCharged] 0
    exObstacleCharged (of_decide_eq_true (by with_unfolding_all rfl))
    (of_decide_eq_true (by with_unfolding_all rfl))
  have hval : ((CalculateField exConfig inverseFalloff 2 2 [exObstacleCharged]).1)[0]? =
      some { exObstacleCharged with LocalFieldValue := 0 } :=
    of_decide_eq_true (by with_unfolding_all rfl)
  rw [hval] at ht'
  obtain rfl := Option.some.inj ht'
  exact absurd heq (of_decide_eq_false (by with_unfolding_all rfl))


/-! ## The running maximum as a fold of magnitudes -/

theorem ite_lt_eq_max (m x : ℚ) : (if m < x then x else m) = max m x := by
  rcases le_or_lt x m with h | h
  · rw [if_neg (not_lt.2 h), max_eq_left h]
  · rw [if_pos h, max_eq_right h.le]

theorem foldl_guard_filter (f : Tile → ℚ) (l : List Tile) (m : ℚ) :
    l.foldl
      (fun m t =>
        if t.type = TileType.ettObstructed then m
        else if m < f t then f t else m)
      m =
      (l.filter (fun t => ¬t.type = TileType.ettObstructed)).foldl
        (fun m t => if m < f t then f t else m) m := by
  induction l generalizing m with
  | nil => rfl
  | cons t l ih =>
      simp only [List.foldl_cons, List.filter_cons]
      by_cases h : t.type = TileType.ettObstructed
      · rw [if_pos h,
          if_neg (show ¬(decide ¬t.type = TileType.ettObstructed) = true by simp [h]), ih]
      · rw [if_neg h,
          if_pos (show (decide ¬t.type = TileType.ettObstructed) = true by simp [h]),
          List.foldl_cons, ih]

theorem filter_nonobstacle_map_processTile (contrib : ℚ → ℚ → Vector2f → Vector2f)
    (root : Node) (l : List Tile) :
    (l.map (processTile contrib root)).filter (fun t => ¬t.type = TileType.ettObstructed) =
      (l.filter (fun t => ¬t.type = TileType.ettObstructed)).map (processTile contrib root) := by
  induction l with
  | nil => rfl
  | cons t l ih =>
      simp only [List.map_cons, List.filter_cons, processTile_type]
      by_cases h : t.type = TileType.ettObstructed
      · rw [if_neg (show ¬(decide ¬t.type = TileType.ettObstructed) = true by simp [h]),
          if_neg (show ¬(decide ¬t.type = TileType.ettObstructed) = true by simp [h]), ih]
      · rw [if_pos (show (decide ¬t.type = TileType.ettObstructed) = true by simp [h]),
          if_pos (show (decide ¬t.type = TileType.ettObstructed) = true by simp [h]),
          List.map_cons, ih]

theorem sqrt_foldl_ite (g : Tile → ℚ) (l : List Tile) (a : ℚ) :
    Real.sqrt ((l.foldl (fun m t => if m < g t then g t else m) a : ℚ) : ℝ) =
      l.foldl (fun m t => max m (Real.sqrt ((g t : ℚ) : ℝ))) (Real.sqrt ((a : ℚ) : ℝ)) := by
  have hmono : Monotone Real.sqrt := fun x y hxy => Real.sqrt_le_sqrt hxy
  induction l generalizing a with
  | nil => rfl
  | cons t l ih =>
      simp only [List.foldl_cons]
      rw [ite_lt_eq_max, ih]
      congr 1
      rw [Rat.cast_max, hmono.map_max]

/-- Claim C5: the tracked global maximum after a pass is the maximum
magnitude of the final accumulated field over the non-obstacle tiles
processed (zero when none is processed), and in particular a
single-tile world always yields zero. -/
theorem largest_field_strength_is_max_magnitude (cfg : Config)
    (contrib : ℚ → ℚ → Vector2f → Vector2f) (Length Width : ℕ) (world : List Tile) :
    largestFieldStrength cfg contrib Length Width world =
      ((CalculateField cfg contrib Length Width world).1.filter
          (fun t => ¬t.type = TileType.ettObstructed)).foldl
        (fun m t => max m t.LocalFieldValue.Magnitude) 0 ∧
    ∀ t : Tile, largestFieldStrength cfg contrib Length Width [t] = 0 := by
  constructor
  · unfold largestFieldStrength
    rw [CalculateField_snd, CalculateField_fst, filter_nonobstacle_map_processTile,
      foldl_guard_filter (fun t =>
        (processTile contrib (buildTree cfg Length Width world) t).LocalFieldValue.MagnitudeSq),
      sqrt_foldl_ite, List.foldl_map]
    rw [show Real.sqrt ((0 : ℚ) : ℝ) = 0 by simp]
    rfl
  · intro t
    unfold largestFieldStrength
    rw [CalculateField_snd]
    by_cases h : t.type = TileType.ettObstructed
    · simp [h]
    · have hfil :
          ((buildTree cfg Length Width [t]).FindTiles t.Location).filter
            (fun o => o.id ≠ t.id) = [] := by
        rw [List.filter_eq_nil_iff]
        intro u hu
        have hu' : u = t := by
          have := mem_world_of_mem_FindTiles cfg Length Width [t] u t.Location hu
          simpa using this
        simp [hu']
      have hz : processTile contrib (buildTree cfg Length Width [t]) t =
          { t with LocalFieldValue := 0 } := by
        rw [processTile_nonobstacle _ _ _ h, hfil]
        simp
      have hz' : (processTile contrib (buildTree cfg Length Width [t]) t).LocalFieldValue = 0 := by
        rw [hz]
      simp [h, hz', Vector2f.MagnitudeSq]

/-! ## Empty world -/

/-- Claim C7: with no objects, construction yields the bare root leaf,
insertion is a no-op, any query returns the empty candidate set, and a
pass completes with no tile updated and a zero global maximum. -/
theorem empty_world_pass_no_ops (cfg : Config) (contrib : ℚ → ℚ → Vector2f → Vector2f)
    (Length Width : ℕ) :
    buildTree cfg Length Width [] = Node.leaf (worldBounds Length Width) 0 [] ∧
    (∀ p, (buildTree cfg Length Width []).FindTiles p = []) ∧
    CalculateField cfg contrib Length Width [] = ([], 0) ∧
    largestFieldStrength cfg contrib Length Width [] = 0 := by
  refine ⟨rfl, fun p => rfl, rfl, ?_⟩
  unfold largestFieldStrength
  rw [show (CalculateField cfg contrib Length Width []).2 = (0 : ℚ) from rfl]
  simp

/-! ## The instrumented pass and its event trace -/

theorem buildT_loop (cfg : Config) (l : List Tile) (n : Node) (ev : List Event) :
    l.foldl
      (fun acc t => (Node.AddObject cfg cfg.maxDepth acc.1 t, acc.2 ++ [Event.insert t.id]))
      (n, ev) =
      (l.foldl (fun m t => Node.AddObject cfg cfg.maxDepth m t) n,
        ev ++ l.map fun t => Event.insert t.id) := by
  induction l generalizing n ev with
  | nil => simp
  | cons t l ih => simp [ih]

theorem calcT_loop (contrib : ℚ → ℚ → Vector2f → Vector2f) (root : Node)
    (l : List Tile) (a : List Tile) (m : ℚ) (ev : List Event) :
    l.foldl
      (fun acc t =>
        let t' := processTile contrib root t
        if t.type = TileType.ettObstructed then ((acc.1.1 ++ [t'], acc.1.2), acc.2)
        else
          ((acc.1.1 ++ [t'],
              if acc.1.2 < t'.LocalFieldValue.MagnitudeSq then t'.LocalFieldValue.MagnitudeSq
              else acc.1.2),
            acc.2 ++ [Event.query t.Location]))
      ((a, m), ev) =
      (l.foldl
        (fun acc t =>
          let t' := processTile contrib root t
          (acc.1 ++ [t'],
            if t.type = TileType.ettObstructed then acc.2
            else if acc.2 < t'.LocalFieldValue.MagnitudeSq then t'.LocalFieldValue.MagnitudeSq
            else acc.2))
        (a, m),
        ev ++ l.filterMap fun t =>
          if t.type = TileType.ettObstructed then none else some (Event.query t.Location)) := by
  induction l generalizing a m ev with
  | nil => simp
  | cons t l ih =>
      by_cases h : t.type = TileType.ettObstructed
      · simp only [List.foldl_cons, if_pos h, List.filterMap_cons, ih]
        try simp [h]
      · simp only [List.foldl_cons, if_neg h, List.filterMap_cons, ih]
        try simp [h]

theorem CalculateFieldT_fst (cfg : Config) (contrib : ℚ → ℚ → Vector2f → Vector2f)
    (Length Width : ℕ) (world : List Tile) :
    (CalculateFieldT cfg contrib Length Width world).1 =
      CalculateField cfg contrib Length Width world := by
  unfold CalculateFieldT CalculateField buildTree
  dsimp only
  rw [buildT_loop]
  dsimp only
  rw [calcT_loop]

theorem CalculateFieldT_snd (cfg : Config) (contrib : ℚ → ℚ → Vector2f → Vector2f)
    (Length Width : ℕ) (world : List Tile) :
    (CalculateFieldT cfg contrib Length Width world).2 =
      Event.construct (worldBounds Length Width) 0 ::
        ((world.map fun t => Event.insert t.id) ++
          world.filterMap fun t =>
            if t.type = TileType.ettObstructed then none
            else some (Event.query t.Location)) := by
  unfold CalculateFieldT
  dsimp only
  rw [buildT_loop]
  dsimp only
  rw [calcT_loop]
  simp

/-- Claim C8: the instrumented pass computes exactly what CalculateField
computes, and its event trace is the fresh root construction over the
world bounds at depth 0, followed by one insertion per world tile in
order, followed by nothing but queries: no insertion happens after the
first query of a pass. -/
theorem build_then_query_sequential (cfg : Config)
    (contrib : ℚ → ℚ → Vector2f → Vector2f) (Length Width : ℕ) (world : List Tile) :
    (CalculateFieldT cfg contrib Length Width world).1 =
      CalculateField cfg contrib Length Width world ∧
    ∃ qs : List Event,
      (CalculateFieldT cfg contrib Length Width world).2 =
        Event.construct (worldBounds Length Width) 0 ::
          ((world.map fun t => Event.insert t.id) ++ qs) ∧
      ∀ e ∈ qs, ∃ p, e = Event.query p := by
  refine ⟨CalculateFieldT_fst cfg contrib Length Width world,
    world.filterMap fun t =>
      if t.type = TileType.ettObstructed then none else some (Event.query t.Location),
    CalculateFieldT_snd cfg contrib Length Width world, ?_⟩
  intro e he
  obtain ⟨t, _, he⟩ := List.mem_filterMap.mp he
  by_cases h : t.type = TileType.ettObstructed
  · rw [if_pos h] at he
    exact absurd he (by simp)
  · rw [if_neg h] at he
    exact ⟨t.Location, (Option.some.inj he).symm⟩

/-! ## Generated worlds and query bounds -/

theorem GenerateWorld_location (Length Width : ℕ) (pick : ℕ → ℕ → TileType × ℚ × ℚ) :
    ∀ t ∈ GenerateWorld Length Width pick, containsPoint (worldBounds Length Width) t.Location := by
  intro t ht
  unfold GenerateWorld at ht
  simp only [List.mem_flatMap, List.mem_map, List.mem_range] at ht
  obtain ⟨li, hli, wi, hwi, rfl⟩ := ht
  unfold containsPoint worldBounds
  dsimp only
  refine ⟨by positivity, ?_, by positivity, ?_⟩
  · exact_mod_cast hli.le
  · exact_mod_cast hwi.le

/-- Claim C6: in a pass over a generated world, every query point the
pass issues lies inside the root bounding box, so the undefined
out-of-bounds query case is unreachable. -/
theorem generated_world_queries_within_bounds (cfg : Config)
    (contrib : ℚ → ℚ → Vector2f → Vector2f) (Length Width : ℕ)
    (pick : ℕ → ℕ → TileType × ℚ × ℚ) :
    ∀ e ∈ (CalculateFieldT cfg contrib Length Width (GenerateWorld Length Width pick)).2,
      ∀ p, e = Event.query p → containsPoint (worldBounds Length Width) p := by
  intro e he p hep
  rw [CalculateFieldT_snd] at he
  subst hep
  rcases List.mem_cons.mp he with h | h
  · exact absurd h (by simp)
  · rcases List.mem_append.mp h with h | h
    · obtain ⟨t, _, ht⟩ := List.mem_map.mp h
      exact absurd ht (by simp)
    · obtain ⟨t, htw, ht⟩ := List.mem_filterMap.mp h
      by_cases hob : t.type = TileType.ettObstructed
      · rw [if_pos hob] at ht
        exact absurd ht (by simp)
      · rw [if_neg hob] at ht
        have hp : p = t.Location := by
          have := Option.some.inj ht
          exact (Event.query.injEq _ _).mp this.symm
        rw [hp]
        exact GenerateWorld_location Length Width pick t htw

/-! ## The rootNode pointer and ReturnSelectedNode -/

/-- Claim C10: after construction (and still after Generate, which does
not touch rootNode) the rootNode pointer is unassigned and
ReturnSelectedNode has no defined result; after a CalculateField pass
the pointer holds the freshly built tree and ReturnSelectedNode is the
query on that tree. -/
theorem return_selected_node_requires_pass (cfg : Config)
    (contrib : ℚ → ℚ → Vector2f → Vector2f) :
    (∀ p, mkTiledWorldGenerator.ReturnSelectedNode p = none) ∧
    (∀ pick p, (mkTiledWorldGenerator.Generate pick).ReturnSelectedNode p = none) ∧
    (∀ (g : TiledWorldGenerator) (p : Vector2f),
      (g.CalculateFieldS cfg contrib).ReturnSelectedNode p =
        some ((buildTree cfg g.Length g.Width g.world).FindTiles p)) :=
  ⟨fun _ => rfl, fun _ _ => rfl, fun _ _ => rfl⟩

/-! ## Determinism: invariance under re-identification -/

theorem tileBounds_reId (f : ℕ → ℕ) (t : Tile) : tileBounds (reId f t) = tileBounds t := rfl

theorem mapNode_box (g : Tile → Tile) (n : Node) : (mapNode g n).box = n.box := by
  cases n <;> rfl

theorem addAtCap_internal (box : AABBf) (d : ℕ) (n0 n1 n2 n3 : Node) (t : Tile) :
    (Node.internal box d n0 n1 n2 n3).addAtCap t =
      Node.internal box d
        (insertOverlapping Node.addAtCap t n0) (insertOverlapping Node.addAtCap t n1)
        (insertOverlapping Node.addAtCap t n2) (insertOverlapping Node.addAtCap t n3) := rfl

theorem insertOverlapping_mapNode (f : ℕ → ℕ) (F G : Node → Tile → Node) (t : Tile) (n : Node)
    (hFG : F (mapNode (reId f) n) (reId f t) = mapNode (reId f) (G n t)) :
    insertOverlapping F (reId f t) (mapNode (reId f) n) =
      mapNode (reId f) (insertOverlapping G t n) := by
  unfold insertOverlapping
  rw [mapNode_box, tileBounds_reId]
  split
  · exact hFG
  · rfl

theorem addAtCap_mapNode (f : ℕ → ℕ) (n : Node) (t : Tile) :
    (mapNode (reId f) n).addAtCap (reId f t) = mapNode (reId f) (n.addAtCap t) := by
  induction n with
  | leaf box d cs => simp [mapNode, Node.addAtCap]
  | internal box d n0 n1 n2 n3 ih0 ih1 ih2 ih3 =>
      show Node.internal box d
          (insertOverlapping Node.addAtCap (reId f t) (mapNode (reId f) n0))
          (insertOverlapping Node.addAtCap (reId f t) (mapNode (reId f) n1))
          (insertOverlapping Node.addAtCap (reId f t) (mapNode (reId f) n2))
          (insertOverlapping Node.addAtCap (reId f t) (mapNode (reId f) n3)) =
        mapNode (reId f)
          (Node.internal box d
            (insertOverlapping Node.addAtCap t n0) (insertOverlapping Node.addAtCap t n1)
            (insertOverlapping Node.addAtCap t n2) (insertOverlapping Node.addAtCap t n3))
      rw [insertOverlapping_mapNode f _ _ t n0 ih0, insertOverlapping_mapNode f _ _ t n1 ih1,
        insertOverlapping_mapNode f _ _ t n2 ih2, insertOverlapping_mapNode f _ _ t n3 ih3]
      rfl

theorem foldl_insertOverlapping_mapNode (f : ℕ → ℕ) (cfg : Config) (b : ℕ)
    (hcomm : ∀ n t, Node.AddObject cfg b (mapNode (reId f) n) (reId f t) =
        mapNode (reId f) (Node.AddObject cfg b n t))
    (ts : List Tile) (n : Node) :
    (ts.map (reId f)).foldl (fun m u => insertOverlapping (Node.AddObject cfg b) u m)
        (mapNode (reId f) n) =
      mapNode (reId f)
        (ts.foldl (fun m u => insertOverlapping (Node.AddObject cfg b) u m) n) := by
  induction ts generalizing n with
  | nil => rfl
  | cons u ts ih =>
      simp only [List.map_cons, List.foldl_cons]
      rw [insertOverlapping_mapNode f _ _ u n (hcomm n u), ih]

theorem AddObject_mapNode (f : ℕ → ℕ) (cfg : Config) (b : ℕ) (n : Node) (t : Tile) :
    Node.AddObject cfg b (mapNode (reId f) n) (reId f t) =
      mapNode (reId f) (Node.AddObject cfg b n t) := by
  induction b generalizing n t with
  | zero => rw [AddObject_zero, AddObject_zero]; exact addAtCap_mapNode f n t
  | succ b ih =>
      cases n with
      | leaf box d cs =>
          simp only [mapNode]
          rw [AddObject_succ_leaf, AddObject_succ_leaf]
          have hlen : List.map (reId f) cs ++ [reId f t] = List.map (reId f) (cs ++ [t]) := by
            simp
          rw [hlen]
          by_cases hs : splitCondition cfg box (cs ++ [t])
          · have hs' : splitCondition cfg box (List.map (reId f) (cs ++ [t])) := by
              unfold splitCondition at hs ⊢
              simpa using hs
            rw [if_pos hs', if_pos hs, redistribute_eq_foldl, redistribute_eq_foldl]
            rw [show (Node.leaf (quad0 box) (d + 1) ([] : List Tile)) =
                mapNode (reId f) (Node.leaf (quad0 box) (d + 1) []) from rfl,
              show (Node.leaf (quad1 box) (d + 1) ([] : List Tile)) =
                mapNode (reId f) (Node.leaf (quad1 box) (d + 1) []) from rfl,
              show (Node.leaf (quad2 box) (d + 1) ([] : List Tile)) =
                mapNode (reId f) (Node.leaf (quad2 box) (d + 1) []) from rfl,
              show (Node.leaf (quad3 box) (d + 1) ([] : List Tile)) =
                mapNode (reId f) (Node.leaf (quad3 box) (d + 1) []) from rfl,
              foldl_insertOverlapping_mapNode f cfg b ih,
              foldl_insertOverlapping_mapNode f cfg b ih,
              foldl_insertOverlapping_mapNode f cfg b ih,
              foldl_insertOverlapping_mapNode f cfg b ih]
            rfl
          · have hs' : ¬splitCondition cfg box (List.map (reId f) (cs ++ [t])) := by
              unfold splitCondition at hs ⊢
              simpa using hs
            rw [if_neg hs', if_neg hs]
            simp [mapNode]
      | internal box d n0 n1 n2 n3 =>
          show Node.internal box d
              (insertOverlapping (Node.AddObject cfg b) (reId f t) (mapNode (reId f) n0))
              (insertOverlapping (Node.AddObject cfg b) (reId f t) (mapNode (reId f) n1))
              (insertOverlapping (Node.AddObject cfg b) (reId f t) (mapNode (reId f) n2))
              (insertOverlapping (Node.AddObject cfg b) (reId f t) (mapNode (reId f) n3)) =
            mapNode (reId f)
              (Node.internal box d
                (insertOverlapping (Node.AddObject cfg b) t n0)
                (insertOverlapping (Node.AddObject cfg b) t n1)
                (insertOverlapping (Node.AddObject cfg b) t n2)
                (insertOverlapping (Node.AddObject cfg b) t n3))
          rw [insertOverlapping_mapNode f _ _ t n0 (ih n0 t),
            insertOverlapping_mapNode f _ _ t n1 (ih n1 t),
            insertOverlapping_mapNode f _ _ t n2 (ih n2 t),
            insertOverlapping_mapNode f _ _ t n3 (ih n3 t)]
          rfl

theorem FindTiles_mapNode (g : Tile → Tile) (n : Node) (p : Vector2f) :
    (mapNode g n).FindTiles p = (n.FindTiles p).map g := by
  induction n with
  | leaf box d cs => rfl
  | internal box d n0 n1 n2 n3 ih0 ih1 ih2 ih3 =>
      simp only [mapNode]
      rw [FindTiles_internal, FindTiles_internal, selChild_map box p (mapNode g)]
      rcases selChild_cases box p n0 n1 n2 n3 with h | h | h | h <;> rw [h] <;> assumption

theorem buildTree_mapNode (f : ℕ → ℕ) (cfg : Config) (Length Width : ℕ) (world : List Tile) :
    buildTree cfg Length Width (world.map (reId f)) =
      mapNode (reId f) (buildTree cfg Length Width world) := by
  unfold buildTree
  have aux : ∀ (l : List Tile) (n : Node),
      (l.map (reId f)).foldl (fun m u => Node.AddObject cfg cfg.maxDepth m u)
          (mapNode (reId f) n) =
        mapNode (reId f) (l.foldl (fun m u => Node.AddObject cfg cfg.maxDepth m u) n) := by
    intro l
    induction l with
    | nil => intro n; rfl
    | cons u l ih =>
        intro n
        simp only [List.map_cons, List.foldl_cons]
        rw [AddObject_mapNode f cfg cfg.maxDepth n u, ih]
  exact aux world (Node.leaf (worldBounds Length Width) 0 [])

theorem foldl_skip_reId (f : ℕ → ℕ) (hf : Function.Injective f)
    (contrib : ℚ → ℚ → Vector2f → Vector2f) (t : Tile) (l : List Tile) (acc : Vector2f) :
    l.foldl
      (fun acc o =>
        if (reId f o).id = (reId f t).id then acc
        else acc + CalculateFieldTo contrib (reId f o) (reId f t))
      acc =
      l.foldl (fun acc o => if o.id = t.id then acc else acc + CalculateFieldTo contrib o t)
        acc := by
  induction l generalizing acc with
  | nil => rfl
  | cons o l ih =>
      simp only [List.foldl_cons]
      by_cases h : o.id = t.id
      · rw [if_pos h, if_pos (show (reId f o).id = (reId f t).id from by
          show f o.id = f t.id
          rw [h])]
        exact ih _
      · rw [if_neg h, if_neg (show ¬(reId f o).id = (reId f t).id from fun hc => h (hf hc))]
        exact ih _

theorem processTile_reId (f : ℕ → ℕ) (hf : Function.Injective f)
    (contrib : ℚ → ℚ → Vector2f → Vector2f) (root : Node) (t : Tile) :
    processTile contrib (mapNode (reId f) root) (reId f t) =
      reId f (processTile contrib root t) := by
  unfold processTile
  dsimp only
  by_cases h : t.type = TileType.ettObstructed
  · rw [if_pos (show (reId f t).type = TileType.ettObstructed from h), if_pos h]
    rfl
  · rw [if_neg (show ¬(reId f t).type = TileType.ettObstructed from h),
      if_neg h]
    have hfold :
        ((mapNode (reId f) root).FindTiles (reId f t).Location).foldl
          (fun acc o =>
            if o.id = (reId f t).id then acc
            else acc + CalculateFieldTo contrib o (reId f t))
          0 =
        (root.FindTiles t.Location).foldl
          (fun acc o => if o.id = t.id then acc else acc + CalculateFieldTo contrib o t) 0 := by
      rw [show (reId f t).Location = t.Location from rfl, FindTiles_mapNode, List.foldl_map]
      exact foldl_skip_reId f hf contrib t (root.FindTiles t.Location) 0
    rw [hfold]
    rfl

/-- Claim C9: a pass is deterministic across reruns: re-identifying the
world's tiles with any injective renaming (the model of the same world
being allocated at different addresses on a second run) yields the same
per-tile field values, tile for tile, and the same tracked maximum. -/
theorem calculate_field_deterministic (cfg : Config)
    (contrib : ℚ → ℚ → Vector2f → Vector2f) (Length Width : ℕ) (world : List Tile)
    (f : ℕ → ℕ) (hf : Function.Injective f) :
    (CalculateField cfg contrib Length Width (world.map (reId f))).1 =
      (CalculateField cfg contrib Length Width world).1.map (reId f) ∧
    (CalculateField cfg contrib Length Width (world.map (reId f))).2 =
      (CalculateField cfg contrib Length Width world).2 := by
  constructor
  · rw [CalculateField_fst, CalculateField_fst, buildTree_mapNode, List.map_map, List.map_map]
    refine List.map_congr_left ?_
    intro t _
    exact processTile_reId f hf contrib _ t
  · rw [CalculateField_snd, CalculateField_snd, buildTree_mapNode, List.foldl_map]
    refine List.foldl_ext _ _ _ ?_
    intro m t _
    rw [processTile_reId f hf contrib _ t]
    rfl

/-! ## Concrete witnesses -/

theorem field_sums_all_candidates_witness :
    (processTile inverseFalloff (buildTree exConfig 2 2 [exFree, exObstacle])
        exFree).LocalFieldValue =
      ((((buildTree exConfig 2 2 [exFree, exObstacle]).FindTiles
          (processTile inverseFalloff (buildTree exConfig 2 2 [exFree, exObstacle])
            exFree).Location).filter
          (fun o => o.id ≠ (processTile inverseFalloff
              (buildTree exConfig 2 2 [exFree, exObstacle]) exFree).id ∧
            ¬o.type = TileType.ettObstructed)).map
        (fun o => CalculateFieldTo inverseFalloff o
          (processTile inverseFalloff (buildTree exConfig 2 2 [exFree, exObstacle]) exFree))).sum +
      ((((buildTree exConfig 2 2 [exFree, exObstacle]).FindTiles
          (processTile inverseFalloff (buildTree exConfig 2 2 [exFree, exObstacle])
            exFree).Location).filter
          (fun o => o.id ≠ (processTile inverseFalloff
              (buildTree exConfig 2 2 [exFree, exObstacle]) exFree).id ∧
            o.type = TileType.ettObstructed)).map
        (fun o => CalculateFieldTo inverseFalloff o
          (processTile inverseFalloff (buildTree exConfig 2 2 [exFree, exObstacle]) exFree))).sum :=
  field_sums_all_candidates_including_obstacles exConfig inverseFalloff 2 2
    [exFree, exObstacle] _
    (of_decide_eq_true (by with_unfolding_all rfl))
    (of_decide_eq_true (by with_unfolding_all rfl))

theorem obstacle_field_reset_witness :
    ((CalculateField exConfig inverseFalloff 2 2 [exObstacleCharged]).1)[0]? =
      some { exObstacleCharged with LocalFieldValue := 0 } :=
  obstacle_field_reset_to_zero exConfig inverseFalloff 2 2 [exObstacleCharged] 0
    exObstacleCharged rfl rfl

theorem inserted_tile_found_witness :
    exUndesirableA ∈
      (buildTree exConfigSplit 4 4 [exUndesirableA, exObstacle]).FindTiles
        exUndesirableA.Location :=
  inserted_tile_found_at_its_location exConfigSplit 4 4 [exUndesirableA, exObstacle]
    exUndesirableA (of_decide_eq_true (by with_unfolding_all rfl))
    (of_decide_eq_true (by with_unfolding_all rfl))
    (of_decide_eq_true (by with_unfolding_all rfl))

theorem self_excluded_witness :
    (processTile inverseFalloff (buildTree exConfig 4 4 [exUndesirableA, exUndesirableB])
        exUndesirableA).LocalFieldValue =
      ((((buildTree exConfig 4 4 [exUndesirableA, exUndesirableB]).FindTiles
          (processTile inverseFalloff (buildTree exConfig 4 4 [exUndesirableA, exUndesirableB])
            exUndesirableA).Location).filter
          (fun o => o.id ≠ (processTile inverseFalloff
              (buildTree exConfig 4 4 [exUndesirableA, exUndesirableB]) exUndesirableA).id)).map
        (fun o => CalculateFieldTo inverseFalloff o
          (processTile inverseFalloff (buildTree exConfig 4 4 [exUndesirableA, exUndesirableB])
            exUndesirableA))).sum ∧
    ∀ u ∈ (buildTree exConfig 4 4 [exUndesirableA, exUndesirableB]).FindTiles
        (processTile inverseFalloff (buildTree exConfig 4 4 [exUndesirableA, exUndesirableB])
          exUndesirableA).Location,
      u.id ≠ (processTile inverseFalloff
          (buildTree exConfig 4 4 [exUndesirableA, exUndesirableB]) exUndesirableA).id →
        u ∈ ((buildTree exConfig 4 4 [exUndesirableA, exUndesirableB]).FindTiles
            (processTile inverseFalloff (buildTree exConfig 4 4 [exUndesirableA, exUndesirableB])
              exUndesirableA).Location).filter
          (fun o => o.id ≠ (processTile inverseFalloff
              (buildTree exConfig 4 4 [exUndesirableA, exUndesirableB]) exUndesirableA).id) :=
  self_excluded_by_identity exConfig inverseFalloff 4 4 [exUndesirableA, exUndesirableB] _
    (of_decide_eq_true (by with_unfolding_all rfl))
    (of_decide_eq_true (by with_unfolding_all rfl))

theorem queries_within_bounds_witness :
    containsPoint (worldBounds 1 1) (⟨0, 0⟩ : Vector2f) :=
  generated_world_queries_within_bounds exConfig inverseFalloff 1 1
    (fun _ _ => (TileType.ettFree, 0, 0)) (Event.query ⟨0, 0⟩)
    (of_decide_eq_true (by with_unfolding_all rfl)) ⟨0, 0⟩ rfl

theorem calculate_field_deterministic_witness :
    (CalculateField exConfig inverseFalloff 2 2
        ([exFree, exObstacle].map (reId Nat.succ))).1 =
      (CalculateField exConfig inverseFalloff 2 2 [exFree, exObstacle]).1.map (reId Nat.succ) ∧
    (CalculateField exConfig inverseFalloff 2 2
        ([exFree, exObstacle].map (reId Nat.succ))).2 =
      (CalculateField exConfig inverseFalloff 2 2 [exFree, exObstacle]).2 :=
  calculate_field_deterministic exConfig inverseFalloff 2 2 [exFree, exObstacle]
    Nat.succ (fun _ _ h => Nat.succ.inj h)
